import Mathlib

/-!
Shallow embedding of the vector-enabled knowledge-graph memory
(`mcp_neo4j_memory/vector_memory.py`) together with its configuration
(`config.py`) and the entity/relation record shapes (`server.py`).

The graph store is modelled as an explicit list of nodes; each store
operation issued by the Python layer is translated into a pure state
transformation following the text of the query it executes.  The
embedding provider is an abstract parameter `encode : String → Vec`,
and the store's vector-similarity primitive is an abstract scoring
function `scoreOf : Vec → Vec → ℚ` (the provider and the similarity
metric are external collaborators).  Batching of embedding generation
is dropped: embeddings depend only on the submitted entity, so batch
grouping has no effect on stored results.  Timestamp properties
(`indexed_at`, `created_at`) are not modelled.
-/

/-- Embedding vectors, abstract contents. -/
abbrev Vec := List ℚ

/-- `SIMILARITY_THRESHOLD` from `config.py`. -/
def SIMILARITY_THRESHOLD : ℚ := 7/10

/-- Entity record as in `server.py` (`labels` optional, defaulting to none). -/
structure Entity where
  name : String
  type : String
  observations : List String
  labels : Option (List String) := none
deriving DecidableEq, Repr

/-- Relation record as in `server.py`. -/
structure Relation where
  source : String
  target : String
  relationType : String
deriving DecidableEq, Repr

/-- Observation-addition record (`ObservationAddition` in `server.py`). -/
structure ObsAddition where
  entityName : String
  contents : List String
deriving DecidableEq, Repr

/-- Observation-deletion record (`ObservationDeletion` in `server.py`). -/
structure ObsDeletion where
  entityName : String
  observations : List String
deriving DecidableEq, Repr

/-- A stored graph node: merge-key properties, observation list, the
`user_labels` property, the attached graph labels (including the
`Entity` base marker), and the three optional embedding properties. -/
structure Node where
  name : String
  type : String
  observations : List String
  userLabels : Option (List String) := none
  nodeLabels : List String := []
  contentVec : Option Vec := none
  observationVec : Option Vec := none
  identityVec : Option Vec := none
deriving DecidableEq, Repr

/-- A stored relationship (edge), keyed by endpoint names and the
sanitized relationship type spliced into the query. -/
structure Edge where
  source : String
  target : String
  relType : String
  contextVec : Vec
deriving DecidableEq, Repr

abbrev Store := List Node

/-- Python `str.capitalize`: first character upper-cased, the rest
lower-cased (ASCII model). -/
def pyCapitalize (w : String) : String :=
  match w.data with
  | [] => ""
  | c :: cs => String.mk (c.toUpper :: cs.map Char.toLower)

/-- Characters kept by `re.sub(r'[^a-zA-Z0-9_\s]', '', label)`. -/
def isLabelKeepChar (c : Char) : Bool :=
  c.isAlphanum || c == '_' || c.isWhitespace

/-- Split a character list at separators, dropping empty pieces (the
combination of `re.split` on a separator run and Python's skip of
falsy words). -/
def splitChars (p : Char → Bool) : List Char → List Char → List String
  | [], acc => if acc.isEmpty then [] else [String.mk acc.reverse]
  | c :: cs, acc =>
    if p c then
      if acc.isEmpty then splitChars p cs []
      else String.mk acc.reverse :: splitChars p cs []
    else splitChars p cs (c :: acc)

/-- Sanitize a single label: strip special characters, split on
whitespace/underscore runs, CamelCase-join, and prefix `Label` when the
result does not start with a letter; an empty result is dropped. -/
def sanitizeOne (label : String) : Option String :=
  let cleaned := label.data.filter isLabelKeepChar
  let words := splitChars (fun c => c.isWhitespace || c == '_') cleaned []
  let camel := String.join (words.map pyCapitalize)
  match camel.data with
  | [] => none
  | c :: _ => if c.isAlpha then some camel else some ("Label" ++ camel)

/-- `_sanitize_labels`: empty/absent input yields no labels; more than
3 input labels raises `ValueError("Maximum 3 labels allowed")`;
otherwise each label is sanitized and empty results dropped. -/
def sanitize_labels : Option (List String) → Except String (List String)
  | none => .ok []
  | some ls =>
    if ls.isEmpty then .ok []
    else if 3 < ls.length then .error "Maximum 3 labels allowed"
    else .ok (ls.filterMap sanitizeOne)

/-- `_generate_embeddings`: the three text projections (content,
observation, identity) of an entity, each passed to the provider. -/
def genEmbeddings (encode : String → Vec) (e : Entity) : Vec × Vec × Vec :=
  (encode (e.name ++ " is a " ++ e.type ++ ". " ++ String.intercalate " " e.observations),
   encode (if e.observations.isEmpty then e.name else String.intercalate " " e.observations),
   encode (e.name ++ " (" ++ e.type ++ ")"))

/-- Write all three embedding properties of a node from one generated triple. -/
def setVecs (n : Node) (t : Vec × Vec × Vec) : Node :=
  { n with contentVec := some t.1, observationVec := some t.2.1, identityVec := some t.2.2 }

/-- The `(name, type)` merge-key pattern `(e { name: $name, type: $type })`. -/
def keyMatchB (name ty : String) (n : Node) : Bool :=
  n.name == name && n.type == ty

/-- `ON MATCH SET e.observations = e.observations + [obs in $observations
WHERE NOT obs IN e.observations]`. -/
def onMatchObs (old new : List String) : List String :=
  old ++ new.filter (fun o => !(old.contains o))

/-- Per-node effect of the `MERGE` query when the key pattern matches. -/
def mergeNode (e : Entity) (labels : List String) (emb : Vec × Vec × Vec) (n : Node) : Node :=
  if keyMatchB e.name e.type n then
    setVecs { n with
      observations := onMatchObs n.observations e.observations,
      userLabels := if labels.isEmpty then n.userLabels else some labels } emb
  else n

/-- The `MERGE (e { name: $name, type: $type }) ...` upsert issued per
entity by `create_entities`: update every key-matching node, or create
one carrying the `Entity` base marker. -/
def mergeEntity (st : Store) (e : Entity) (labels : List String) (emb : Vec × Vec × Vec) : Store :=
  if st.any (keyMatchB e.name e.type) then
    st.map (mergeNode e labels emb)
  else
    st ++ [{ name := e.name, type := e.type, observations := e.observations,
             userLabels := if labels.isEmpty then none else some labels,
             nodeLabels := ["Entity"],
             contentVec := some emb.1, observationVec := some emb.2.1,
             identityVec := some emb.2.2 }]

/-- Per-node effect of `MATCH (e {name: $name}) SET e:{label}` (labels
attach additively; matching is by name only). -/
def attachNode (nm lbl : String) (n : Node) : Node :=
  if n.name == nm then
    { n with nodeLabels := if n.nodeLabels.contains lbl then n.nodeLabels
             else n.nodeLabels ++ [lbl] }
  else n

def attachLabel (st : Store) (nm lbl : String) : Store :=
  st.map (attachNode nm lbl)

/-- Processing of one entity inside the `create_entities` loop:
sanitize labels (may raise), run the merge upsert, then attach each
sanitized label. -/
def createOne (encode : String → Vec) (st : Store) (e : Entity) : Except String Store := do
  let labels ← sanitize_labels e.labels
  let emb := genEmbeddings encode e
  pure (labels.foldl (fun s l => attachLabel s e.name l) (mergeEntity st e labels emb))

/-- `create_entities`: entities are processed independently, in order. -/
def create_entities (encode : String → Vec) (st : Store) (es : List Entity) :
    Except String Store :=
  es.foldlM (createOne encode) st

/-- Python `str.split()`: whitespace-separated words, empties dropped. -/
def pySplit (s : String) : List String :=
  splitChars (fun c => c.isWhitespace) s.data []

/-- Python `str.lower()` (ASCII model). -/
def strLower (s : String) : String :=
  String.mk (s.data.map Char.toLower)

/-- Substring occurrence (Python `pat in s`). -/
def strOccurs (pat s : String) : Bool :=
  decide (pat.data <:+: s.data)

/-- Cypher `collect(distinct …)`: first occurrences kept, in order. -/
def distinctFirst {α : Type} [DecidableEq α] (l : List α) : List α :=
  l.foldl (fun acc x => if acc.contains x then acc else acc ++ [x]) []

/-- Result-row shape produced by `_process_fulltext_results` /
`_process_vector_results`: entities with a truthy (non-empty) name. -/
def rowsToEntities (rows : List Entity) : List Entity :=
  rows.filter (fun t => !(t.name == ""))

/-- `find_nodes`: exact lookup of every node whose `name` is in the
requested list, deduplicated, names must be non-empty. -/
def find_nodes (st : Store) (names : List String) : List Entity :=
  rowsToEntities (distinctFirst
    ((st.filter (fun n => names.contains n.name)).map
      (fun n => { name := n.name, type := n.type, observations := n.observations })))

/-- Embedding property selected by `index_mapping.get(mode, content)`:
unknown modes fall back to the content index. -/
def vecForMode (mode : String) (n : Node) : Option Vec :=
  if mode == "observations" then n.observationVec
  else if mode == "identity" then n.identityVec
  else n.contentVec

/-- Descending-score order on scored rows. -/
def scoreDesc (a b : Node × ℚ) : Prop := b.2 ≤ a.2

instance : DecidableRel scoreDesc := fun a b =>
  inferInstanceAs (Decidable (b.2 ≤ a.2))

instance : IsTotal (Node × ℚ) scoreDesc := ⟨fun a b => le_total b.2 a.2⟩

instance : IsTrans (Node × ℚ) scoreDesc := ⟨fun _ _ _ h1 h2 => le_trans h2 h1⟩

/-- The scored rows surviving `vector_search`'s pipeline: the vector
index holds `Entity`-labelled nodes possessing the mode's embedding
property; `db.index.vector.queryNodes` returns the `limit * 2` highest
scoring of them; rows under `$threshold` are filtered out; rows are
ordered by descending score. -/
def vectorSearchScored (encode : String → Vec) (scoreOf : Vec → Vec → ℚ) (st : Store)
    (q mode : String) (limit : Nat) (threshold : ℚ) : List (Node × ℚ) :=
  let qv := encode q
  let cands := st.filter (fun n => n.nodeLabels.contains "Entity" && (vecForMode mode n).isSome)
  let scored := cands.map (fun n => (n, scoreOf qv ((vecForMode mode n).getD [])))
  ((List.insertionSort scoreDesc scored).take (limit * 2)).filter
    (fun p => decide (threshold ≤ p.2))

/-- `vector_search`: the surviving rows converted to entities (no
further cut to `limit` is applied by the query). -/
def vector_search (encode : String → Vec) (scoreOf : Vec → Vec → ℚ) (st : Store)
    (q mode : String) (limit : Nat) (threshold : ℚ) : List Entity :=
  rowsToEntities ((vectorSearchScored encode scoreOf st q mode limit threshold).map
    (fun p => { name := p.1.name, type := p.1.type, observations := p.1.observations }))

/-- Interrogative markers checked (as substrings) by the exact-match gate. -/
def interrogatives : List String := ["what", "how", "why"]

/-- Phrasing cues routing to content-mode vector search. -/
def contentCues : List String := ["what is", "who is", "tell me about", "explain"]

/-- Behavioral cues routing to observation-mode vector search. -/
def behaviorCues : List String := ["does", "can", "did", "involved in", "related to"]

/-- `smart_search`: routing heuristic over the query shape.  The second
component counts embedding-provider invocations made by the chosen
path (the exact-lookup path makes none; a vector search encodes the
query once). -/
def smart_search (encode : String → Vec) (scoreOf : Vec → Vec → ℚ) (st : Store)
    (q : String) (limit : Nat) : List Entity × Nat :=
  let ql := strLower q
  let words := pySplit q
  let fallback :=
    if contentCues.any (fun c => strOccurs c ql) then
      (vector_search encode scoreOf st q "content" limit SIMILARITY_THRESHOLD, 1)
    else if behaviorCues.any (fun c => strOccurs c ql) then
      (vector_search encode scoreOf st q "observations" limit SIMILARITY_THRESHOLD, 1)
    else
      (vector_search encode scoreOf st q "content" limit SIMILARITY_THRESHOLD, 1)
  if words.length ≤ 2 && !(interrogatives.any (fun c => strOccurs c ql)) then
    let exact := find_nodes st words
    if !exact.isEmpty then (exact, 0) else fallback
  else fallback

/-- Entity view of a fetched store record (`labels` not fetched). -/
def nodeToEntity (n : Node) : Entity :=
  { name := n.name, type := n.type, observations := n.observations }

/-- Guard of the unindexed-entities queries: `MATCH (m:Entity) WHERE
m.content_embedding IS NULL`. -/
def isUnindexed (n : Node) : Bool :=
  n.nodeLabels.contains "Entity" && n.contentVec.isNone

/-- The count returned by `ensure_all_indexed`'s counting query. -/
def unindexedCount (st : Store) : Nat :=
  (st.filter isUnindexed).length

/-- Per-node effect of one row of `_update_embeddings_batch`'s
`UNWIND … MATCH (m:Entity {name: update.name}) SET …` query. -/
def backfillNode (encode : String → Vec) (e : Entity) (n : Node) : Node :=
  if n.nodeLabels.contains "Entity" && n.name == e.name then
    setVecs n (genEmbeddings encode e)
  else n

/-- `migrate_existing_memories`: fetch the unindexed entities ordered
by name and rewrite all three embedding properties for each (batch
splitting has no effect on the stored result). -/
def migrate_existing_memories (encode : String → Vec) (st : Store) : Store :=
  let unindexed := List.insertionSort (fun a b : Entity => a.name ≤ b.name)
    ((st.filter isUnindexed).map nodeToEntity)
  unindexed.foldl (fun s e => s.map (backfillNode encode e)) st

/-- `ensure_all_indexed`: migrate only when the unindexed count is positive. -/
def ensure_all_indexed (encode : String → Vec) (st : Store) : Store :=
  if 0 < unindexedCount st then migrate_existing_memories encode st else st

/-- Per-node effect of one `UNWIND` row of `add_observations`' first
query (match is by name): append the contents not already present. -/
def addObsNode (a : ObsAddition) (n : Node) : Node :=
  if n.name == a.entityName then
    { n with observations := n.observations ++ a.contents.filter (fun o => !(n.observations.contains o)) }
  else n

/-- First node matched by `MATCH (e { name: $name })`. -/
def firstByName (st : Store) (nm : String) : Option Node :=
  st.find? (fun n => n.name == nm)

/-- Embedding regeneration performed per affected entity by
`add_observations` / `delete_observations`: read back the first node
with the given name and write all three embedding properties of every
node with that name from one `_generate_embeddings` call. -/
def regenFor (encode : String → Vec) (st : Store) (nm : String) : Store :=
  match firstByName st nm with
  | none => st
  | some m =>
    st.map (fun n => if n.name == nm then setVecs n (genEmbeddings encode (nodeToEntity m)) else n)

/-- `add_observations`: apply all observation appends, then regenerate
embeddings for each named entity. -/
def add_observations (encode : String → Vec) (st : Store) (items : List ObsAddition) : Store :=
  let st1 := items.foldl (fun s a => s.map (addObsNode a)) st
  items.foldl (fun s a => regenFor encode s a.entityName) st1

/-- Per-node effect of one `UNWIND` row of `delete_observations`' first
query: drop the listed observation strings. -/
def delObsNode (d : ObsDeletion) (n : Node) : Node :=
  if n.name == d.entityName then
    { n with observations := n.observations.filter (fun o => !(d.observations.contains o)) }
  else n

/-- `delete_observations`: apply all deletions, then regenerate
embeddings for each named entity. -/
def delete_observations (encode : String → Vec) (st : Store) (items : List ObsDeletion) : Store :=
  let st1 := items.foldl (fun s d => s.map (delObsNode d)) st
  items.foldl (fun s d => regenFor encode s d.entityName) st1

/-- `safe_rel_type`: `re.sub(r'[^a-zA-Z0-9_]', '_', relationType)` —
the string spliced into the structural (edge-type) position of the
relation queries. -/
def sanitizeRelType (s : String) : String :=
  String.mk (s.data.map (fun c => if c.isAlphanum || c == '_' then c else '_'))

/-- One iteration of `create_relations`: embed the raw context text,
find one source and one target node by name, and `MERGE` an edge whose
type is the sanitized relation type (no-op when an endpoint is
missing). -/
def createRelStep (encode : String → Vec) (st : Store) (acc : List Edge) (r : Relation) :
    List Edge :=
  let rt := sanitizeRelType r.relationType
  let ctx := encode (r.source ++ " " ++ r.relationType ++ " " ++ r.target)
  match firstByName st r.source, firstByName st r.target with
  | some _, some _ =>
    if acc.any (fun ed => ed.source == r.source && ed.target == r.target && ed.relType == rt) then
      acc.map (fun ed =>
        if ed.source == r.source && ed.target == r.target && ed.relType == rt then
          { ed with contextVec := ctx } else ed)
    else acc ++ [{ source := r.source, target := r.target, relType := rt, contextVec := ctx }]
  | _, _ => acc

def create_relations (encode : String → Vec) (st : Store) (edges : List Edge)
    (rels : List Relation) : List Edge :=
  rels.foldl (createRelStep encode st) edges

/-- One iteration of `delete_relations`: find one source and one target
node by name and delete every edge between them carrying the sanitized
relation type (no-op when an endpoint is missing). -/
def deleteRelStep (st : Store) (acc : List Edge) (r : Relation) : List Edge :=
  match firstByName st r.source, firstByName st r.target with
  | some _, some _ =>
    acc.filter (fun ed =>
      !(ed.source == r.source && ed.target == r.target &&
        ed.relType == sanitizeRelType r.relationType))
  | _, _ => acc

def delete_relations (st : Store) (edges : List Edge) (rels : List Relation) : List Edge :=
  rels.foldl (deleteRelStep st) edges

/-! ### General helper lemmas -/

theorem foldl_map_comm {α β : Type} (g : β → α → α) :
    ∀ (ls : List β) (st : List α),
      ls.foldl (fun s b => s.map (g b)) st
        = st.map (fun a => ls.foldl (fun x b => g b x) a) := by
  intro ls
  induction ls with
  | nil => intro st; simp
  | cons b bs ih =>
    intro st
    simp only [List.foldl_cons]
    rw [ih, List.map_map]
    rfl

theorem mem_of_mem_distinctFirst {α : Type} [DecidableEq α] {l : List α} {x : α}
    (h : x ∈ distinctFirst l) : x ∈ l := by
  have key : ∀ (l acc : List α),
      x ∈ l.foldl (fun acc y => if acc.contains y then acc else acc ++ [y]) acc →
      x ∈ acc ∨ x ∈ l := by
    intro l
    induction l with
    | nil => intro acc h; exact .inl h
    | cons y ys ih =>
      intro acc h
      simp only [List.foldl_cons] at h
      rcases ih _ h with h' | h'
      · by_cases hc : acc.contains y
        · simp only [hc, if_true] at h'
          exact .inl h'
        · simp only [hc, if_false] at h'
          rcases List.mem_append.1 h' with h'' | h''
          · exact .inl h''
          · right
            simp only [List.mem_singleton] at h''
            exact h'' ▸ List.mem_cons_self y ys
      · exact .inr (List.mem_cons_of_mem y h')
  rcases key l [] h with h' | h'
  · cases h'
  · exact h'

/-- Characters admissible in the structural position of a store query. -/
def isStructuralSafe (c : Char) : Prop := c.isAlphanum = true ∨ c = '_'

/-- Every character of a structurally-spliced relation type is safe. -/
def safeEdge (ed : Edge) : Prop := ∀ c ∈ ed.relType.data, isStructuralSafe c

theorem sanitizeRelType_safe (s : String) : ∀ c ∈ (sanitizeRelType s).data, isStructuralSafe c := by
  intro c hc
  simp only [sanitizeRelType, String.data] at hc
  rcases List.mem_map.1 hc with ⟨c', _, rfl⟩
  by_cases h : c'.isAlphanum || c' == '_'
  · simp only [h, if_true]
    rcases (Bool.or_eq_true _ _).mp h with h' | h'
    · exact .inl h'
    · exact .inr (by simpa using h')
  · simp only [h, if_false]
    exact .inr rfl

theorem createRelStep_safe (encode : String → Vec) (st : Store) (acc : List Edge)
    (r : Relation) (hacc : ∀ ed ∈ acc, safeEdge ed) :
    ∀ ed ∈ createRelStep encode st acc r, safeEdge ed := by
  intro ed hed
  unfold createRelStep at hed
  cases hs : firstByName st r.source with
  | none => rw [hs] at hed; exact hacc ed hed
  | some m =>
    cases ht : firstByName st r.target with
    | none => rw [hs, ht] at hed; exact hacc ed hed
    | some m' =>
      rw [hs, ht] at hed
      by_cases hany : acc.any (fun e =>
          e.source == r.source && e.target == r.target &&
          e.relType == sanitizeRelType r.relationType)
      · simp only [hany, if_true] at hed
        rcases List.mem_map.1 hed with ⟨ed', hed', rfl⟩
        by_cases hc : ed'.source == r.source && ed'.target == r.target &&
            ed'.relType == sanitizeRelType r.relationType
        · simp only [hc, if_true]
          exact hacc ed' hed'
        · simp only [hc, if_false]
          exact hacc ed' hed'
      · simp only [hany, if_false] at hed
        rcases List.mem_append.1 hed with h' | h'
        · exact hacc ed h'
        · simp only [List.mem_singleton] at h'
          subst h'
          exact sanitizeRelType_safe r.relationType

/-- C8: every `relationType` reaching the structural (edge-type)
position of the relation queries is the input with each character
outside `[a-zA-Z0-9_]` replaced by `_`; consequently no stored edge's
type contains an unsafe character, for `create_relations` and
`delete_relations` alike. -/
theorem relation_type_sanitized
    (encode : String → Vec) (st : Store) (edges : List Edge) (rels : List Relation)
    (hedges : ∀ ed ∈ edges, safeEdge ed) :
    (∀ s : String, ∀ c ∈ (sanitizeRelType s).data, isStructuralSafe c) ∧
    (∀ ed ∈ create_relations encode st edges rels, safeEdge ed) ∧
    (∀ ed ∈ delete_relations st edges rels, safeEdge ed) := by
  refine ⟨sanitizeRelType_safe, ?_, ?_⟩
  · unfold create_relations
    induction rels generalizing edges with
    | nil => exact hedges
    | cons r rs ih =>
      intro ed hed
      simp only [List.foldl_cons] at hed
      exact ih _ (createRelStep_safe encode st edges r hedges) ed hed
  · unfold delete_relations
    induction rels generalizing edges with
    | nil => exact hedges
    | cons r rs ih =>
      intro ed hed
      simp only [List.foldl_cons] at hed
      refine ih _ ?_ ed hed
      intro ed' hed'
      unfold deleteRelStep at hed'
      cases hs : firstByName st r.source with
      | none => rw [hs] at hed'; exact hedges ed' hed'
      | some m =>
        cases ht : firstByName st r.target with
        | none => rw [hs, ht] at hed'; exact hedges ed' hed'
        | some m' =>
          rw [hs, ht] at hed'
          exact hedges ed' (List.mem_of_mem_filter hed')

/-- Concrete embedding provider used to instantiate witnesses. -/
def encodeN (s : String) : Vec := [(s.length : ℚ)]

/-- Witness for C8 at a concrete input: a relation type with spaces and
punctuation is spliced fully sanitized. -/
theorem relation_type_sanitized_witness :
    (∀ ed ∈ ([] : List Edge), safeEdge ed) ∧
    ∀ ed ∈ create_relations encodeN
        [{ name := "A", type := "T", observations := [] },
         { name := "B", type := "T", observations := [] }]
        [] [{ source := "A", target := "B", relationType := "works with!" }],
      safeEdge ed := by
  refine ⟨fun ed hed => absurd hed (List.not_mem_nil ed), ?_⟩
  exact (relation_type_sanitized encodeN
    [{ name := "A", type := "T", observations := [] },
     { name := "B", type := "T", observations := [] }]
    [] [{ source := "A", target := "B", relationType := "works with!" }]
    (fun ed hed => absurd hed (List.not_mem_nil ed))).2.1

/-- C9: `vector_search` treats any mode outside
`{content, observations, identity}` exactly as content mode: the
lookup `index_mapping.get(mode, "entity_content_embeddings")` silently
defaults, and nothing else depends on the mode string. -/
theorem invalid_mode_defaults_to_content
    (encode : String → Vec) (scoreOf : Vec → Vec → ℚ) (st : Store)
    (q mode : String) (limit : Nat) (threshold : ℚ)
    (h : mode ∉ ["content", "observations", "identity"]) :
    vector_search encode scoreOf st q mode limit threshold
      = vector_search encode scoreOf st q "content" limit threshold := by
  simp only [List.mem_cons, List.mem_singleton, not_or] at h
  have h1 : (mode == "observations") = false := by
    simpa using h.2.1
  have h2 : (mode == "identity") = false := by
    simpa using h.2.2
  have hv : vecForMode mode = vecForMode "content" := by
    funext n
    simp [vecForMode, h1, h2]
  unfold vector_search vectorSearchScored
  rw [hv]

/-- Witness for C9: the unknown mode string `"embeddings"` searches the
content space. -/
theorem invalid_mode_defaults_to_content_witness :
    "embeddings" ∉ ["content", "observations", "identity"] ∧
    vector_search encodeN (fun _ _ => 0)
        [{ name := "A", type := "T", observations := ["o"],
           nodeLabels := ["Entity"], contentVec := some [1] }]
        "q" "embeddings" 3 0
      = vector_search encodeN (fun _ _ => 0)
        [{ name := "A", type := "T", observations := ["o"],
           nodeLabels := ["Entity"], contentVec := some [1] }]
        "q" "content" 3 0 :=
  ⟨by decide, invalid_mode_defaults_to_content encodeN (fun _ _ => 0) _ "q" "embeddings" 3 0
    (by decide)⟩

/-- Shared fact: when the exact-match gate passes and the lookup is
non-empty, `smart_search` returns the exact lookup with no provider
call. -/
theorem smart_search_exact
    (encode : String → Vec) (scoreOf : Vec → Vec → ℚ) (st : Store)
    (q : String) (limit : Nat)
    (hlen : (pySplit q).length ≤ 2)
    (hint : ∀ c ∈ interrogatives, strOccurs c (strLower q) = false)
    (hne : find_nodes st (pySplit q) ≠ []) :
    smart_search encode scoreOf st q limit = (find_nodes st (pySplit q), 0) := by
  have hany : (interrogatives.any (fun c => strOccurs c (strLower q))) = false := by
    rw [List.any_eq_false]
    intro c hc
    simp [hint c hc]
  have hempty : (find_nodes st (pySplit q)).isEmpty = false := by
    cases hfe : find_nodes st (pySplit q) with
    | nil => exact absurd hfe hne
    | cons a l => rfl
  unfold smart_search
  simp [hany, hlen, hempty]

/-- C5: a query of at most 2 words whose lowercase form contains none of
the interrogative markers `what`/`how`/`why` is routed to the exact
name lookup first, and a non-empty exact result is returned with zero
embedding-provider calls; a query whose lowercase form contains the cue
`"what is"` is routed to a content-mode vector search. -/
theorem smart_search_routing
    (encode : String → Vec) (scoreOf : Vec → Vec → ℚ) (st : Store)
    (q : String) (limit : Nat) :
    ((pySplit q).length ≤ 2 →
      (∀ c ∈ interrogatives, strOccurs c (strLower q) = false) →
      find_nodes st (pySplit q) ≠ [] →
      smart_search encode scoreOf st q limit = (find_nodes st (pySplit q), 0)) ∧
    (strOccurs "what is" (strLower q) = true →
      smart_search encode scoreOf st q limit
        = (vector_search encode scoreOf st q "content" limit SIMILARITY_THRESHOLD, 1)) := by
  constructor
  · exact smart_search_exact encode scoreOf st q limit
  · intro hwis
    have hwhat : strOccurs "what" (strLower q) = true := by
      have h1 : "what".data <:+: "what is".data := by decide
      have h2 : "what is".data <:+: (strLower q).data := of_decide_eq_true hwis
      exact decide_eq_true (h1.trans h2)
    have hany : (interrogatives.any (fun c => strOccurs c (strLower q))) = true := by
      rw [List.any_eq_true]
      exact ⟨"what", by simp [interrogatives], hwhat⟩
    have hcue : (contentCues.any (fun c => strOccurs c (strLower q))) = true := by
      rw [List.any_eq_true]
      exact ⟨"what is", by simp [contentCues], hwis⟩
    unfold smart_search
    simp [hany, hcue]

/-- Witness for C5: the single-word query `"Cyril"` with a matching
stored entity is answered by exact lookup with zero provider calls. -/
theorem smart_search_routing_witness :
    (pySplit "Cyril").length ≤ 2 ∧
    find_nodes [{ name := "Cyril", type := "Person", observations := ["CEO"],
                  nodeLabels := ["Entity"] }] (pySplit "Cyril") ≠ [] ∧
    smart_search encodeN (fun _ _ => 0)
        [{ name := "Cyril", type := "Person", observations := ["CEO"],
           nodeLabels := ["Entity"] }] "Cyril" 10
      = (find_nodes [{ name := "Cyril", type := "Person", observations := ["CEO"],
                       nodeLabels := ["Entity"] }] (pySplit "Cyril"), 0) :=
  ⟨by decide, by decide,
    (smart_search_routing encodeN (fun _ _ => 0) _ "Cyril" 10).1
      (by decide) (by decide) (by decide)⟩

/-- C10: the exact-match branch of `smart_search` looks up each
whitespace-separated word of a two-word query as a separate entity
name (`find_nodes` on the split words), so every entity it can return
is named by one of the two words, and an entity named by the full
two-word phrase (distinct from both words) is never returned by that
branch. -/
theorem exact_lookup_per_word
    (encode : String → Vec) (scoreOf : Vec → Vec → ℚ) (st : Store)
    (q w1 w2 : String) (limit : Nat)
    (hw : pySplit q = [w1, w2]) :
    (∀ ent ∈ find_nodes st (pySplit q), ent.name = w1 ∨ ent.name = w2) ∧
    (q ≠ w1 → q ≠ w2 → ∀ ent ∈ find_nodes st (pySplit q), ent.name ≠ q) ∧
    ((∀ c ∈ interrogatives, strOccurs c (strLower q) = false) →
      find_nodes st (pySplit q) ≠ [] →
      smart_search encode scoreOf st q limit = (find_nodes st (pySplit q), 0)) := by
  have hmem : ∀ ent ∈ find_nodes st (pySplit q), ent.name = w1 ∨ ent.name = w2 := by
    intro ent hent
    unfold find_nodes rowsToEntities at hent
    have hent' := List.mem_of_mem_filter hent
    have hent'' := mem_of_mem_distinctFirst hent'
    rcases List.mem_map.1 hent'' with ⟨n, hn, rfl⟩
    have hcontains := (List.mem_filter.1 hn).2
    have : n.name ∈ pySplit q := by
      simpa using hcontains
    rw [hw] at this
    simpa using this
  refine ⟨hmem, ?_, ?_⟩
  · intro h1 h2 ent hent
    rcases hmem ent hent with h | h
    · rw [h]; exact fun hq => h1 hq.symm
    · rw [h]; exact fun hq => h2 hq.symm
  · intro hint hne
    exact smart_search_exact encode scoreOf st q limit (by rw [hw]; exact le_refl 2) hint hne

/-- Witness for C10: for the query `"John Smith"` the exact branch
returns only entities named `John` or `Smith`; a stored entity named
`"John Smith"` is not among them. -/
theorem exact_lookup_per_word_witness :
    pySplit "John Smith" = ["John", "Smith"] ∧
    ∀ ent ∈ find_nodes
        [{ name := "John Smith", type := "Person", observations := [],
           nodeLabels := ["Entity"] },
         { name := "John", type := "Person", observations := [],
           nodeLabels := ["Entity"] }] (pySplit "John Smith"),
      ent.name ≠ "John Smith" :=
  ⟨by decide,
    (exact_lookup_per_word encodeN (fun _ _ => 0) _ "John Smith" "John" "Smith" 10
      (by decide)).2.1 (by decide) (by decide)⟩

/-- Counterexample for C7: the input `["a","b","c","!!!"]` yields
exactly 3 sanitized labels, yet `create_entities` rejects it, because
`_sanitize_labels` checks the raw label count (4) before sanitizing —
refuting "an input yielding exactly 3 sanitized labels is accepted". -/
theorem label_cardinality_counterexample :
    (["a", "b", "c", "!!!"].filterMap sanitizeOne).length = 3 ∧
    sanitize_labels (some ["a", "b", "c", "!!!"]) = .error "Maximum 3 labels allowed" ∧
    create_entities encodeN []
      [{ name := "E", type := "T", observations := [],
         labels := some ["a", "b", "c", "!!!"] }]
      = .error "Maximum 3 labels allowed" :=
  ⟨by decide, rfl, rfl⟩

/-- C7 (amended): `_sanitize_labels` rejects on the raw label count,
before sanitization: more than 3 supplied labels → the create call
fails with the validation error (and, the sanitized count never
exceeding the raw count, more than 3 sanitized labels still implies
rejection); exactly 3 supplied labels (hence at most 3 sanitized
labels) → the create call succeeds. -/
theorem label_cardinality_amended
    (encode : String → Vec) (st : Store) (e : Entity) (ls : List String) :
    ((ls.filterMap sanitizeOne).length ≤ ls.length) ∧
    (e.labels = some ls → 3 < ls.length →
      create_entities encode st [e] = .error "Maximum 3 labels allowed") ∧
    (ls.length = 3 →
      sanitize_labels (some ls) = .ok (ls.filterMap sanitizeOne) ∧
      (ls.filterMap sanitizeOne).length ≤ 3) ∧
    (e.labels = some ls → ls.length = 3 →
      ∃ st', create_entities encode st [e] = .ok st') := by
  have hsan_err : 3 < ls.length → sanitize_labels (some ls) = .error "Maximum 3 labels allowed" := by
    intro hlen
    have hne : ls.isEmpty = false := by
      cases ls with
      | nil => exact absurd hlen (by decide)
      | cons a l => rfl
    unfold sanitize_labels
    simp [hne, hlen]
  have hsan_ok : ls.length = 3 → sanitize_labels (some ls) = .ok (ls.filterMap sanitizeOne) := by
    intro hlen
    have hne : ls.isEmpty = false := by
      cases ls with
      | nil => exact absurd hlen (by decide)
      | cons a l => rfl
    have hnlt : ¬ 3 < ls.length := by omega
    unfold sanitize_labels
    simp [hne, hnlt]
  refine ⟨List.length_filterMap_le _ _, ?_, ?_, ?_⟩
  · intro hlab hlen
    unfold create_entities createOne
    simp [hlab, hsan_err hlen]
  · intro hlen
    exact ⟨hsan_ok hlen, by rw [← hlen]; exact List.length_filterMap_le _ _⟩
  · intro hlab hlen
    unfold create_entities createOne
    simp only [List.foldlM_cons, List.foldlM_nil]
    rw [hlab, hsan_ok hlen]
    exact ⟨_, rfl⟩

/-- Witness for C7's amended theorem: 4 labels rejected, 3 accepted. -/
theorem label_cardinality_amended_witness :
    create_entities encodeN []
        [{ name := "E", type := "T", observations := [],
           labels := some ["a", "b", "c", "d"] }]
      = .error "Maximum 3 labels allowed" ∧
    ∃ st', create_entities encodeN []
        [{ name := "E", type := "T", observations := [],
           labels := some ["x", "y", "z"] }]
      = .ok st' :=
  ⟨(label_cardinality_amended encodeN [] _ ["a", "b", "c", "d"]).2.1 rfl (by decide),
   (label_cardinality_amended encodeN [] _ ["x", "y", "z"]).2.2.2 rfl rfl⟩

/-- All three embedding properties present. -/
def allVecsSome (n : Node) : Prop :=
  n.contentVec.isSome = true ∧ n.observationVec.isSome = true ∧ n.identityVec.isSome = true

instance : DecidablePred allVecsSome := fun n => by
  unfold allVecsSome
  infer_instance

theorem backfillNode_cond_pos (encode : String → Vec) (e : Entity) (n : Node)
    (h : (n.nodeLabels.contains "Entity" && n.name == e.name) = true) :
    backfillNode encode e n = setVecs n (genEmbeddings encode e) := by
  unfold backfillNode
  rw [if_pos h]

theorem backfillNode_cond_neg (encode : String → Vec) (e : Entity) (n : Node)
    (h : ¬ (n.nodeLabels.contains "Entity" && n.name == e.name) = true) :
    backfillNode encode e n = n := by
  unfold backfillNode
  rw [if_neg h]

theorem backfillNode_name (encode : String → Vec) (e : Entity) (n : Node) :
    (backfillNode encode e n).name = n.name ∧
    (backfillNode encode e n).nodeLabels = n.nodeLabels := by
  by_cases h : (n.nodeLabels.contains "Entity" && n.name == e.name) = true
  · rw [backfillNode_cond_pos encode e n h]
    exact ⟨rfl, rfl⟩
  · rw [backfillNode_cond_neg encode e n h]
    exact ⟨rfl, rfl⟩

theorem backfillFold_name (encode : String → Vec) (ents : List Entity) (n : Node) :
    (ents.foldl (fun x e => backfillNode encode e x) n).name = n.name ∧
    (ents.foldl (fun x e => backfillNode encode e x) n).nodeLabels = n.nodeLabels := by
  induction ents generalizing n with
  | nil => exact ⟨rfl, rfl⟩
  | cons e es ih =>
    simp only [List.foldl_cons]
    rcases ih (backfillNode encode e n) with ⟨h1, h2⟩
    rcases backfillNode_name encode e n with ⟨h3, h4⟩
    exact ⟨h1.trans h3, h2.trans h4⟩

theorem allVecsSome_setVecs (n : Node) (t : Vec × Vec × Vec) : allVecsSome (setVecs n t) :=
  ⟨rfl, rfl, rfl⟩

theorem backfillNode_allSome (encode : String → Vec) (e : Entity) (n : Node)
    (h : allVecsSome n) : allVecsSome (backfillNode encode e n) := by
  by_cases hc : (n.nodeLabels.contains "Entity" && n.name == e.name) = true
  · rw [backfillNode_cond_pos encode e n hc]
    exact allVecsSome_setVecs n _
  · rw [backfillNode_cond_neg encode e n hc]
    exact h

theorem backfillFold_allSome (encode : String → Vec) (ents : List Entity) (n : Node)
    (h : allVecsSome n) : allVecsSome (ents.foldl (fun x e => backfillNode encode e x) n) := by
  induction ents generalizing n with
  | nil => exact h
  | cons e es ih =>
    simp only [List.foldl_cons]
    exact ih _ (backfillNode_allSome encode e n h)

theorem backfillFold_hits (encode : String → Vec) (ents : List Entity) (n : Node)
    (hl : n.nodeLabels.contains "Entity" = true)
    (hx : ∃ e ∈ ents, n.name = e.name) :
    allVecsSome (ents.foldl (fun x e => backfillNode encode e x) n) := by
  induction ents generalizing n with
  | nil =>
    rcases hx with ⟨e, he, _⟩
    exact absurd he (List.not_mem_nil e)
  | cons e es ih =>
    simp only [List.foldl_cons]
    by_cases hname : n.name = e.name
    · have hc : (n.nodeLabels.contains "Entity" && n.name == e.name) = true :=
        (Bool.and_eq_true _ _).mpr ⟨hl, beq_iff_eq.mpr hname⟩
      rw [backfillNode_cond_pos encode e n hc]
      exact backfillFold_allSome encode es _ (allVecsSome_setVecs n _)
    · rcases hx with ⟨e', he', hn'⟩
      rcases List.mem_cons.1 he' with rfl | he''
      · exact absurd hn' hname
      · have hfalse : (n.name == e.name) = false := beq_eq_false_iff_ne.mpr hname
        have hskip : backfillNode encode e n = n := by
          refine backfillNode_cond_neg encode e n ?_
          rw [hfalse, Bool.and_false]
          exact Bool.false_ne_true
        rw [hskip]
        exact ih n hl ⟨e', he'', hn'⟩

/-- C6: assuming every `Entity`-marked node is either missing its
content vector or fully vectorized (the N + M premise), after
`ensure_all_indexed` every `Entity`-marked node carries all three
vectors, the unindexed count is 0, and a call with nothing unindexed
leaves the store untouched. -/
theorem backfill_completeness
    (encode : String → Vec) (st : Store)
    (hM : ∀ n ∈ st, n.nodeLabels.contains "Entity" = true →
      n.contentVec = none ∨ allVecsSome n) :
    (∀ n ∈ ensure_all_indexed encode st,
      n.nodeLabels.contains "Entity" = true → allVecsSome n) ∧
    unindexedCount (ensure_all_indexed encode st) = 0 ∧
    (unindexedCount st = 0 → ensure_all_indexed encode st = st) := by
  have hnoop : unindexedCount st = 0 → ensure_all_indexed encode st = st := by
    intro h
    unfold ensure_all_indexed
    simp [h]
  have hmain : ∀ n ∈ ensure_all_indexed encode st,
      n.nodeLabels.contains "Entity" = true → allVecsSome n := by
    by_cases hc : 0 < unindexedCount st
    · intro n' hn' hl'
      unfold ensure_all_indexed at hn'
      rw [if_pos hc] at hn'
      unfold migrate_existing_memories at hn'
      rw [foldl_map_comm] at hn'
      rcases List.mem_map.1 hn' with ⟨n, hn, rfl⟩
      have hl : n.nodeLabels.contains "Entity" = true := by
        rw [← (backfillFold_name encode _ n).2]
        exact hl'
      rcases hM n hn hl with hnone | hsome
      · refine backfillFold_hits encode _ n hl ⟨nodeToEntity n, ?_, rfl⟩
        rw [List.mem_insertionSort]
        refine List.mem_map.2 ⟨n, List.mem_filter.2 ⟨hn, ?_⟩, rfl⟩
        unfold isUnindexed
        rw [hl, hnone]
        rfl
      · exact backfillFold_allSome encode _ n hsome
    · intro n' hn' hl'
      have hz : unindexedCount st = 0 := Nat.eq_zero_of_not_pos hc
      rw [hnoop hz] at hn'
      rcases hM n' hn' hl' with hnone | hsome
      · exfalso
        have hu : isUnindexed n' = true := by
          unfold isUnindexed
          rw [hl', hnone]
          rfl
        have hmem : n' ∈ st.filter isUnindexed := List.mem_filter.2 ⟨hn', hu⟩
        exact hc (List.length_pos_of_mem hmem)
      · exact hsome
  refine ⟨hmain, ?_, hnoop⟩
  have hnil : (ensure_all_indexed encode st).filter isUnindexed = [] := by
    rw [List.filter_eq_nil_iff]
    intro n hn hu
    unfold isUnindexed at hu
    rcases (Bool.and_eq_true _ _).mp hu with ⟨hl, hnone⟩
    have h1 := (hmain n hn hl).1
    rw [Option.isNone_iff_eq_none] at hnone
    rw [hnone] at h1
    exact Bool.false_ne_true h1
  unfold unindexedCount
  rw [hnil]
  rfl

/-- Witness for C6 at a concrete store: one unindexed and one
vectorized entity before the call, both fully vectorized after it. -/
theorem backfill_completeness_witness :
    (∀ n ∈ ensure_all_indexed encodeN
        [{ name := "Old", type := "T", observations := ["o1"], nodeLabels := ["Entity"] },
         { name := "New", type := "T", observations := ["o2"], nodeLabels := ["Entity"],
           contentVec := some [1], observationVec := some [2], identityVec := some [3] }],
      n.nodeLabels.contains "Entity" = true → allVecsSome n) ∧
    unindexedCount (ensure_all_indexed encodeN
        [{ name := "Old", type := "T", observations := ["o1"], nodeLabels := ["Entity"] },
         { name := "New", type := "T", observations := ["o2"], nodeLabels := ["Entity"],
           contentVec := some [1], observationVec := some [2], identityVec := some [3] }]) = 0 :=
  ⟨(backfill_completeness encodeN _ (by decide)).1,
   (backfill_completeness encodeN _ (by decide)).2.1⟩

/-- C4 (amended): a threshold strictly above every attainable score
yields zero entities; for any threshold the call returns at most
`limit * 2` entities (the query fetches `limit * 2` candidates and
applies no final cut to `limit`), and the surviving rows are ordered by
descending similarity score, the returned entities following that
order. -/
theorem vector_search_threshold_and_limit
    (encode : String → Vec) (scoreOf : Vec → Vec → ℚ) (st : Store)
    (q mode : String) (limit : Nat) (threshold hi : ℚ) :
    ((∀ u v, scoreOf u v ≤ hi) → hi < threshold →
      vector_search encode scoreOf st q mode limit threshold = []) ∧
    (vector_search encode scoreOf st q mode limit threshold).length ≤ limit * 2 ∧
    List.Sorted scoreDesc (vectorSearchScored encode scoreOf st q mode limit threshold) ∧
    vector_search encode scoreOf st q mode limit threshold
      = rowsToEntities ((vectorSearchScored encode scoreOf st q mode limit threshold).map
          (fun p => { name := p.1.name, type := p.1.type, observations := p.1.observations })) := by
  refine ⟨?_, ?_, ?_, rfl⟩
  · intro hbound hthr
    have hscored : vectorSearchScored encode scoreOf st q mode limit threshold = [] := by
      unfold vectorSearchScored
      rw [List.filter_eq_nil_iff]
      intro p hp hdec
      have hp' : p ∈ List.insertionSort scoreDesc
          ((st.filter (fun n => n.nodeLabels.contains "Entity" && (vecForMode mode n).isSome)).map
            (fun n => (n, scoreOf (encode q) ((vecForMode mode n).getD [])))) :=
        List.mem_of_mem_take hp
      rw [List.mem_insertionSort] at hp'
      rcases List.mem_map.1 hp' with ⟨n, _, rfl⟩
      have : threshold ≤ scoreOf (encode q) ((vecForMode mode n).getD []) :=
        of_decide_eq_true hdec
      exact absurd (lt_of_lt_of_le hthr this) (not_lt.2 (hbound _ _))
    unfold vector_search
    rw [hscored]
    rfl
  · unfold vector_search rowsToEntities
    calc (((vectorSearchScored encode scoreOf st q mode limit threshold).map
            (fun p => ({ name := p.1.name, type := p.1.type, observations := p.1.observations } : Entity))).filter
            (fun t => !(t.name == ""))).length
        ≤ ((vectorSearchScored encode scoreOf st q mode limit threshold).map
            (fun p => ({ name := p.1.name, type := p.1.type, observations := p.1.observations } : Entity))).length :=
          List.length_filter_le _ _
      _ = (vectorSearchScored encode scoreOf st q mode limit threshold).length :=
          List.length_map _ _
      _ ≤ limit * 2 := by
          unfold vectorSearchScored
          calc ((((List.insertionSort scoreDesc _).take (limit * 2))).filter
                  (fun p => decide (threshold ≤ p.2))).length
              ≤ ((List.insertionSort scoreDesc _).take (limit * 2)).length :=
                List.length_filter_le _ _
            _ ≤ limit * 2 := List.length_take_le _ _
  · unfold vectorSearchScored
    have hsorted := List.sorted_insertionSort scoreDesc
      ((st.filter (fun n => n.nodeLabels.contains "Entity" && (vecForMode mode n).isSome)).map
        (fun n => (n, scoreOf (encode q) ((vecForMode mode n).getD []))))
    have htake : List.Sorted scoreDesc ((List.insertionSort scoreDesc
        ((st.filter (fun n => n.nodeLabels.contains "Entity" && (vecForMode mode n).isSome)).map
          (fun n => (n, scoreOf (encode q) ((vecForMode mode n).getD []))))).take (limit * 2)) :=
      List.Pairwise.sublist (List.take_sublist _ _) hsorted
    exact List.Pairwise.sublist (List.filter_sublist _) htake

/-- Counterexample for C4: with `limit = 1` and a threshold at the
lowest attainable score, `vector_search` returns 2 entities — the
query fetches `limit * 2` rows and never cuts back to `limit`,
refuting "returns at most `limit` entities". -/
theorem vector_search_limit_counterexample :
    (vector_search encodeN (fun _ _ => 0)
      [{ name := "A", type := "T", observations := [], nodeLabels := ["Entity"],
         contentVec := some [1] },
       { name := "B", type := "T", observations := [], nodeLabels := ["Entity"],
         contentVec := some [2] }]
      "q" "content" 1 (-1)).length = 2 ∧
    ¬ (vector_search encodeN (fun _ _ => 0)
      [{ name := "A", type := "T", observations := [], nodeLabels := ["Entity"],
         contentVec := some [1] },
       { name := "B", type := "T", observations := [], nodeLabels := ["Entity"],
         contentVec := some [2] }]
      "q" "content" 1 (-1)).length ≤ 1 := by
  constructor
  · rfl
  · decide

/-- Witness for C4's amended theorem: a threshold of 11/10 (above the
maximal score 0 of the constant scorer) yields no entities; the same
search at threshold -1 stays within `limit * 2`. -/
theorem vector_search_threshold_witness :
    vector_search encodeN (fun _ _ => 0)
      [{ name := "A", type := "T", observations := [], nodeLabels := ["Entity"],
         contentVec := some [1] }]
      "q" "content" 1 (11/10) = [] ∧
    (vector_search encodeN (fun _ _ => 0)
      [{ name := "A", type := "T", observations := [], nodeLabels := ["Entity"],
         contentVec := some [1] }]
      "q" "content" 1 (-1)).length ≤ 1 * 2 :=
  ⟨(vector_search_threshold_and_limit encodeN (fun _ _ => 0) _ "q" "content" 1 (11/10) 0).1
      (fun _ _ => le_refl 0) (by norm_num),
   (vector_search_threshold_and_limit encodeN (fun _ _ => 0) _ "q" "content" 1 (-1) 0).2.1⟩

/-! ### Create-path lemmas shared by the merge claims -/

/-- Node-level composite of the label-attach loop. -/
def nodeAttachFold (nm : String) (ls : List String) (n : Node) : Node :=
  ls.foldl (fun x l => attachNode nm l x) n

theorem attachFold_eq_map (nm : String) (ls : List String) (st : Store) :
    ls.foldl (fun s l => attachLabel s nm l) st = st.map (nodeAttachFold nm ls) := by
  unfold attachLabel nodeAttachFold
  exact foldl_map_comm (fun l n => attachNode nm l n) ls st

theorem attachNode_fields (nm l : String) (n : Node) :
    (attachNode nm l n).name = n.name ∧ (attachNode nm l n).type = n.type ∧
    (attachNode nm l n).observations = n.observations ∧
    (attachNode nm l n).contentVec = n.contentVec ∧
    (attachNode nm l n).observationVec = n.observationVec ∧
    (attachNode nm l n).identityVec = n.identityVec := by
  unfold attachNode
  by_cases h : (n.name == nm) = true
  · rw [if_pos h]
    exact ⟨rfl, rfl, rfl, rfl, rfl, rfl⟩
  · rw [if_neg h]
    exact ⟨rfl, rfl, rfl, rfl, rfl, rfl⟩

theorem nodeAttachFold_fields (nm : String) (ls : List String) (n : Node) :
    (nodeAttachFold nm ls n).name = n.name ∧ (nodeAttachFold nm ls n).type = n.type ∧
    (nodeAttachFold nm ls n).observations = n.observations ∧
    (nodeAttachFold nm ls n).contentVec = n.contentVec ∧
    (nodeAttachFold nm ls n).observationVec = n.observationVec ∧
    (nodeAttachFold nm ls n).identityVec = n.identityVec := by
  induction ls generalizing n with
  | nil => exact ⟨rfl, rfl, rfl, rfl, rfl, rfl⟩
  | cons l ls ih =>
    rcases ih (attachNode nm l n) with ⟨h1, h2, h3, h4, h5, h6⟩
    rcases attachNode_fields nm l n with ⟨g1, g2, g3, g4, g5, g6⟩
    exact ⟨h1.trans g1, h2.trans g2, h3.trans g3, h4.trans g4, h5.trans g5, h6.trans g6⟩

theorem attachNode_labels_mono (nm l : String) (n : Node) :
    n.nodeLabels ⊆ (attachNode nm l n).nodeLabels := by
  unfold attachNode
  by_cases h : (n.name == nm) = true
  · rw [if_pos h]
    by_cases hc : (n.nodeLabels.contains l) = true
    · rw [if_pos hc]
      exact fun a ha => ha
    · rw [if_neg hc]
      exact List.subset_append_left _ _
  · rw [if_neg h]
    exact fun a ha => ha

theorem nodeAttachFold_labels_mono (nm : String) (ls : List String) (n : Node) :
    n.nodeLabels ⊆ (nodeAttachFold nm ls n).nodeLabels := by
  induction ls generalizing n with
  | nil => exact fun a ha => ha
  | cons l ls ih =>
    exact fun a ha => ih (attachNode nm l n) (attachNode_labels_mono nm l n ha)

theorem mergeNode_key (e : Entity) (L : List String) (emb : Vec × Vec × Vec) (n : Node) :
    (mergeNode e L emb n).name = n.name ∧ (mergeNode e L emb n).type = n.type ∧
    (mergeNode e L emb n).nodeLabels = n.nodeLabels := by
  unfold mergeNode
  by_cases h : keyMatchB e.name e.type n = true
  · rw [if_pos h]
    exact ⟨rfl, rfl, rfl⟩
  · rw [if_neg h]
    exact ⟨rfl, rfl, rfl⟩

theorem mergeNode_match (e : Entity) (L : List String) (emb : Vec × Vec × Vec) (n : Node)
    (h : keyMatchB e.name e.type n = true) :
    (mergeNode e L emb n).observations = onMatchObs n.observations e.observations ∧
    (mergeNode e L emb n).contentVec = some emb.1 ∧
    (mergeNode e L emb n).observationVec = some emb.2.1 ∧
    (mergeNode e L emb n).identityVec = some emb.2.2 := by
  unfold mergeNode
  rw [if_pos h]
  exact ⟨rfl, rfl, rfl, rfl⟩

theorem mergeNode_nomatch (e : Entity) (L : List String) (emb : Vec × Vec × Vec) (n : Node)
    (h : ¬ keyMatchB e.name e.type n = true) : mergeNode e L emb n = n := by
  unfold mergeNode
  rw [if_neg h]

theorem keyMatchB_mergeNode (e : Entity) (L : List String) (emb : Vec × Vec × Vec)
    (nm ty : String) (n : Node) :
    keyMatchB nm ty (mergeNode e L emb n) = keyMatchB nm ty n := by
  rcases mergeNode_key e L emb n with ⟨h1, h2, _⟩
  unfold keyMatchB
  rw [h1, h2]

theorem keyMatchB_nodeAttachFold (nm' : String) (ls : List String) (nm ty : String) (n : Node) :
    keyMatchB nm ty (nodeAttachFold nm' ls n) = keyMatchB nm ty n := by
  rcases nodeAttachFold_fields nm' ls n with ⟨h1, h2, _, _, _, _⟩
  unfold keyMatchB
  rw [h1, h2]

theorem createOne_ok (encode : String → Vec) (st st' : Store) (e : Entity)
    (h : createOne encode st e = .ok st') :
    ∃ L, sanitize_labels e.labels = .ok L ∧
      st' = (mergeEntity st e L (genEmbeddings encode e)).map (nodeAttachFold e.name L) := by
  unfold createOne at h
  cases hs : sanitize_labels e.labels with
  | error msg =>
    rw [hs] at h
    exact absurd h (fun hh => Except.noConfusion hh)
  | ok L =>
    rw [hs] at h
    refine ⟨L, rfl, ?_⟩
    have h' : st' = L.foldl (fun s l => attachLabel s e.name l)
        (mergeEntity st e L (genEmbeddings encode e)) :=
      (Except.ok.inj h).symm
    rw [h', attachFold_eq_map]

theorem create_entities_singleton (encode : String → Vec) (st : Store) (e : Entity) :
    create_entities encode st [e] = createOne encode st e := by
  unfold create_entities
  simp only [List.foldlM_cons, List.foldlM_nil]
  exact bind_pure (createOne encode st e)

theorem mergeEntity_fresh (st : Store) (e : Entity) (L : List String) (emb : Vec × Vec × Vec)
    (hany : st.any (keyMatchB e.name e.type) = false) :
    ∃ n0, mergeEntity st e L emb = st ++ [n0] ∧ n0.name = e.name ∧ n0.type = e.type ∧
      n0.observations = e.observations ∧ n0.nodeLabels = ["Entity"] ∧
      n0.contentVec = some emb.1 ∧ n0.observationVec = some emb.2.1 ∧
      n0.identityVec = some emb.2.2 := by
  unfold mergeEntity
  rw [hany]
  exact ⟨_, rfl, rfl, rfl, rfl, rfl, rfl, rfl, rfl⟩

theorem mergeEntity_hit (st : Store) (e : Entity) (L : List String) (emb : Vec × Vec × Vec)
    (hany : st.any (keyMatchB e.name e.type) = true) :
    mergeEntity st e L emb = st.map (mergeNode e L emb) := by
  unfold mergeEntity
  rw [hany]
  rfl

theorem filter_key_map (p : Node → Bool) (f : Node → Node) (hf : ∀ n, p (f n) = p n)
    (l : List Node) : (l.map f).filter p = (l.filter p).map f := by
  rw [List.filter_map]
  congr 1
  exact List.filter_congr (fun n _ => by simp [Function.comp, hf n])

/-- C1: two successive `create_entities` calls under one fresh
`(name, type)` merge key with duplicate-free observation lists leave
exactly one node for that key, whose observation list is the first
call's observations followed by the second call's observations not
already present, in submission order and duplicate-free. -/
theorem merge_idempotence_observations
    (encode : String → Vec) (st st1 st2 : Store) (e1 e2 : Entity)
    (hname : e2.name = e1.name) (htype : e2.type = e1.type)
    (hfresh : ∀ n ∈ st, ¬ keyMatchB e1.name e1.type n = true)
    (hn1 : e1.observations.Nodup) (hn2 : e2.observations.Nodup)
    (h1 : create_entities encode st [e1] = .ok st1)
    (h2 : create_entities encode st1 [e2] = .ok st2) :
    (st2.filter (keyMatchB e1.name e1.type)).length = 1 ∧
    ∀ n ∈ st2, keyMatchB e1.name e1.type n = true →
      n.observations
        = e1.observations ++ e2.observations.filter (fun o => !(e1.observations.contains o)) ∧
      n.observations.Nodup := by
  rw [create_entities_singleton] at h1 h2
  rcases createOne_ok encode st st1 e1 h1 with ⟨L1, _, hst1⟩
  rcases createOne_ok encode st1 st2 e2 h2 with ⟨L2, _, hst2⟩
  have hany1 : st.any (keyMatchB e1.name e1.type) = false := by
    rw [List.any_eq_false]
    exact hfresh
  rcases mergeEntity_fresh st e1 L1 (genEmbeddings encode e1) hany1 with
    ⟨n0, hm1, hn0name, hn0type, hn0obs, _⟩
  rw [hm1] at hst1
  have hkey0 : keyMatchB e1.name e1.type n0 = true := by
    unfold keyMatchB
    rw [hn0name, hn0type]
    simp
  have hkey2 : keyMatchB e2.name e2.type = keyMatchB e1.name e1.type := by
    rw [hname, htype]
  -- the single key-matching node of st1
  have hfil1 : st1.filter (keyMatchB e1.name e1.type) = [nodeAttachFold e1.name L1 n0] := by
    rw [hst1, filter_key_map _ _ (fun n => keyMatchB_nodeAttachFold e1.name L1 e1.name e1.type n),
      List.filter_append]
    have hnil : st.filter (keyMatchB e1.name e1.type) = [] := by
      rw [List.filter_eq_nil_iff]
      exact hfresh
    rw [hnil]
    simp [hkey0]
  have hmem1 : nodeAttachFold e1.name L1 n0 ∈ st1 := by
    have := List.mem_filter.1 (hfil1 ▸ List.mem_singleton_self (nodeAttachFold e1.name L1 n0))
    exact this.1
  have hany2 : st1.any (keyMatchB e2.name e2.type) = true := by
    rw [List.any_eq_true]
    refine ⟨nodeAttachFold e1.name L1 n0, hmem1, ?_⟩
    rw [hkey2, keyMatchB_nodeAttachFold]
    exact hkey0
  rw [mergeEntity_hit st1 e2 L2 (genEmbeddings encode e2) hany2] at hst2
  have hpresM : ∀ n, keyMatchB e1.name e1.type (mergeNode e2 L2 (genEmbeddings encode e2) n)
      = keyMatchB e1.name e1.type n :=
    fun n => keyMatchB_mergeNode e2 L2 (genEmbeddings encode e2) e1.name e1.type n
  have hfil2 : st2.filter (keyMatchB e1.name e1.type)
      = [nodeAttachFold e2.name L2
          (mergeNode e2 L2 (genEmbeddings encode e2) (nodeAttachFold e1.name L1 n0))] := by
    rw [hst2, List.map_map,
      filter_key_map _ _ (fun n => by
        rw [Function.comp_apply, keyMatchB_nodeAttachFold]
        exact hpresM n),
      hfil1]
    rfl
  constructor
  · rw [hfil2]
    rfl
  · intro n hn hkn
    have hn' : n ∈ st2.filter (keyMatchB e1.name e1.type) := List.mem_filter.2 ⟨hn, hkn⟩
    rw [hfil2, List.mem_singleton] at hn'
    subst hn'
    have hkeyA : keyMatchB e2.name e2.type (nodeAttachFold e1.name L1 n0) = true := by
      rw [hkey2, keyMatchB_nodeAttachFold]
      exact hkey0
    rcases mergeNode_match e2 L2 (genEmbeddings encode e2) (nodeAttachFold e1.name L1 n0) hkeyA
      with ⟨hobsM, _, _, _⟩
    have hobsA1 : (nodeAttachFold e1.name L1 n0).observations = e1.observations := by
      rw [(nodeAttachFold_fields e1.name L1 n0).2.2.1, hn0obs]
    have hobsA2 := (nodeAttachFold_fields e2.name L2
      (mergeNode e2 L2 (genEmbeddings encode e2) (nodeAttachFold e1.name L1 n0))).2.2.1
    have hobs : (nodeAttachFold e2.name L2
        (mergeNode e2 L2 (genEmbeddings encode e2) (nodeAttachFold e1.name L1 n0))).observations
        = e1.observations ++ e2.observations.filter (fun o => !(e1.observations.contains o)) := by
      rw [hobsA2, hobsM, hobsA1]
      rfl
    refine ⟨hobs, ?_⟩
    rw [hobs]
    refine List.Nodup.append hn1 (hn2.sublist (List.filter_sublist _)) ?_
    intro a ha haf
    have hpred := List.of_mem_filter haf
    rw [Bool.not_eq_true'] at hpred
    have : a ∈ e1.observations → e1.observations.contains a = true := fun h => by
      exact List.elem_eq_true_of_mem h
    rw [this ha] at hpred
    exact Bool.noConfusion hpred

/-- Witness for C1 at the spec's Ethereum example: one node, two
observations, duplicate-free. -/
theorem merge_idempotence_observations_witness :
    ∃ st1 st2,
      create_entities encodeN []
        [{ name := "Ethereum", type := "Technology",
           observations := ["Smart contract platform"] }] = .ok st1 ∧
      create_entities encodeN st1
        [{ name := "Ethereum", type := "Technology",
           observations := ["Supports DeFi"] }] = .ok st2 ∧
      (st2.filter (keyMatchB "Ethereum" "Technology")).length = 1 ∧
      ∀ n ∈ st2, keyMatchB "Ethereum" "Technology" n = true →
        n.observations = ["Smart contract platform", "Supports DeFi"] ∧
        n.observations.Nodup := by
  refine ⟨_, _, rfl, rfl, ?_, ?_⟩
  · exact (merge_idempotence_observations encodeN [] _ _
      { name := "Ethereum", type := "Technology", observations := ["Smart contract platform"] }
      { name := "Ethereum", type := "Technology", observations := ["Supports DeFi"] }
      rfl rfl (fun n hn => absurd hn (List.not_mem_nil n)) (by decide) (by decide) rfl rfl).1
  · intro n hn hk
    have h := (merge_idempotence_observations encodeN [] _ _
      { name := "Ethereum", type := "Technology", observations := ["Smart contract platform"] }
      { name := "Ethereum", type := "Technology", observations := ["Supports DeFi"] }
      rfl rfl (fun n hn => absurd hn (List.not_mem_nil n)) (by decide) (by decide) rfl rfl).2
      n hn hk
    exact ⟨h.1.trans (by decide), h.2⟩

/-- All three embedding properties of a node written from a single
`_generate_embeddings` call on one entity snapshot. -/
def vecsFromOneGen (encode : String → Vec) (n : Node) : Prop :=
  ∃ e : Entity, n.contentVec = some (genEmbeddings encode e).1 ∧
    n.observationVec = some (genEmbeddings encode e).2.1 ∧
    n.identityVec = some (genEmbeddings encode e).2.2

theorem regenFor_cases (encode : String → Vec) (s : Store) (nm : String) (n' : Node)
    (h : n' ∈ regenFor encode s nm) :
    ∃ n ∈ s, n'.name = n.name ∧ (n' = n ∨ vecsFromOneGen encode n') := by
  unfold regenFor at h
  cases hf : firstByName s nm with
  | none =>
    rw [hf] at h
    exact ⟨n', h, rfl, .inl rfl⟩
  | some m =>
    rw [hf] at h
    rcases List.mem_map.1 h with ⟨n, hn, rfl⟩
    by_cases hb : (n.name == nm) = true
    · rw [if_pos hb]
      exact ⟨n, hn, rfl, .inr ⟨nodeToEntity m, rfl, rfl, rfl⟩⟩
    · rw [if_neg hb]
      exact ⟨n, hn, rfl, .inl rfl⟩

theorem regenFor_named (encode : String → Vec) (s : Store) (nm : String) (n' : Node)
    (h : n' ∈ regenFor encode s nm) (hname : n'.name = nm) : vecsFromOneGen encode n' := by
  unfold regenFor at h
  cases hf : firstByName s nm with
  | none =>
    rw [hf] at h
    exact absurd (beq_iff_eq.mpr hname) (List.find?_eq_none.1 hf n' h)
  | some m =>
    rw [hf] at h
    rcases List.mem_map.1 h with ⟨n, hn, rfl⟩
    by_cases hb : (n.name == nm) = true
    · rw [if_pos hb]
      exact ⟨nodeToEntity m, rfl, rfl, rfl⟩
    · rw [if_neg hb] at hname
      exact absurd (beq_iff_eq.mpr hname) hb

theorem regenFold_named (encode : String → Vec) (names : List String) :
    ∀ (s : Store) (n' : Node), n' ∈ names.foldl (regenFor encode) s → n'.name ∈ names →
      vecsFromOneGen encode n' := by
  induction names with
  | nil =>
    intro s n' _ hmem
    exact absurd hmem (List.not_mem_nil _)
  | cons nm rest ih =>
    intro s n' h hmem
    simp only [List.foldl_cons] at h
    rcases List.mem_cons.1 hmem with hname | hrest
    · have base : ∀ x ∈ regenFor encode s nm, x.name = nm → vecsFromOneGen encode x :=
        fun x hx hxn => regenFor_named encode s nm x hx hxn
      have pres : ∀ (ns : List String) (s' : Store),
          (∀ x ∈ s', x.name = nm → vecsFromOneGen encode x) →
          ∀ x ∈ ns.foldl (regenFor encode) s', x.name = nm → vecsFromOneGen encode x := by
        intro ns
        induction ns with
        | nil => exact fun s' hP x hx => hP x hx
        | cons a as ih2 =>
          intro s' hP x hx hxn
          simp only [List.foldl_cons] at hx
          refine ih2 (regenFor encode s' a) ?_ x hx hxn
          intro y hy hyn
          rcases regenFor_cases encode s' a y hy with ⟨z, hz, hzn, hcase⟩
          rcases hcase with heq | hgen
          · rw [heq]
            exact hP z hz (heq ▸ hyn)
          · exact hgen
      exact pres rest (regenFor encode s nm) base n' h hname
    · exact ih (regenFor encode s nm) n' h hrest

theorem createOne_coherent (encode : String → Vec) (st st' : Store) (e : Entity)
    (h : create_entities encode st [e] = .ok st') :
    ∀ n ∈ st', keyMatchB e.name e.type n = true → vecsFromOneGen encode n := by
  rw [create_entities_singleton] at h
  rcases createOne_ok encode st st' e h with ⟨L, _, hst⟩
  subst hst
  intro n hn hk
  rcases List.mem_map.1 hn with ⟨m, hm, rfl⟩
  rw [keyMatchB_nodeAttachFold] at hk
  have hvecs := (nodeAttachFold_fields e.name L m).2.2.2
  have hm' : vecsFromOneGen encode m := by
    by_cases hany : st.any (keyMatchB e.name e.type) = true
    · rw [mergeEntity_hit st e L (genEmbeddings encode e) hany] at hm
      rcases List.mem_map.1 hm with ⟨m0, _, rfl⟩
      by_cases hk0 : keyMatchB e.name e.type m0 = true
      · rcases mergeNode_match e L (genEmbeddings encode e) m0 hk0 with ⟨_, hc, ho, hi⟩
        exact ⟨e, hc, ho, hi⟩
      · rw [mergeNode_nomatch e L (genEmbeddings encode e) m0 hk0] at hk ⊢
        exact absurd hk hk0
    · have hany' : st.any (keyMatchB e.name e.type) = false := Bool.eq_false_iff.mpr hany
      rcases mergeEntity_fresh st e L (genEmbeddings encode e) hany'
        with ⟨n0, hm1, _, _, _, _, hc, ho, hi⟩
      rw [hm1] at hm
      rcases List.mem_append.1 hm with hmem | hmem
      · exfalso
        rw [List.any_eq_false] at hany'
        exact hany' m hmem hk
      · rw [List.mem_singleton.1 hmem]
        exact ⟨e, hc, ho, hi⟩
  rcases hm' with ⟨e', h1, h2, h3⟩
  exact ⟨e', hvecs.1.trans h1, hvecs.2.1.trans h2, hvecs.2.2.trans h3⟩

/-- C2: every operation that rewrites an entity's observation list
(`create_entities` upserts, `add_observations`, `delete_observations`)
leaves each targeted node with all three embedding properties written
together from a single `_generate_embeddings` call — never a strict
subset. -/
theorem vectors_regenerated_together
    (encode : String → Vec) (st st' : Store) (e : Entity)
    (items : List ObsAddition) (dels : List ObsDeletion) :
    (create_entities encode st [e] = .ok st' →
      ∀ n ∈ st', keyMatchB e.name e.type n = true → vecsFromOneGen encode n) ∧
    (∀ n ∈ add_observations encode st items,
      (∃ it ∈ items, n.name = it.entityName) → vecsFromOneGen encode n) ∧
    (∀ n ∈ delete_observations encode st dels,
      (∃ d ∈ dels, n.name = d.entityName) → vecsFromOneGen encode n) := by
  refine ⟨fun h => createOne_coherent encode st st' e h, ?_, ?_⟩
  · intro n hn hex
    rcases hex with ⟨it, hit, hname⟩
    unfold add_observations at hn
    rw [← List.foldl_map (fun a : ObsAddition => a.entityName)
      (fun s nm => regenFor encode s nm)] at hn
    exact regenFold_named encode (items.map (fun a => a.entityName)) _ n hn
      (List.mem_map.2 ⟨it, hit, hname.symm⟩)
  · intro n hn hex
    rcases hex with ⟨d, hd, hname⟩
    unfold delete_observations at hn
    rw [← List.foldl_map (fun a : ObsDeletion => a.entityName)
      (fun s nm => regenFor encode s nm)] at hn
    exact regenFold_named encode (dels.map (fun a => a.entityName)) _ n hn
      (List.mem_map.2 ⟨d, hd, hname.symm⟩)

/-- Witness for C2: adding an observation to a stored entity leaves it
with the three vectors of one generation call over the updated
snapshot. -/
theorem vectors_regenerated_together_witness :
    vecsFromOneGen encodeN
      { name := "A", type := "T", observations := ["o", "x"], nodeLabels := ["Entity"],
        contentVec := some (genEmbeddings encodeN
          { name := "A", type := "T", observations := ["o", "x"] }).1,
        observationVec := some (genEmbeddings encodeN
          { name := "A", type := "T", observations := ["o", "x"] }).2.1,
        identityVec := some (genEmbeddings encodeN
          { name := "A", type := "T", observations := ["o", "x"] }).2.2 } :=
  (vectors_regenerated_together encodeN
      [{ name := "A", type := "T", observations := ["o"], nodeLabels := ["Entity"] }] []
      { name := "A", type := "T", observations := [] }
      [{ entityName := "A", contents := ["x"] }] []).2.1
    _ (by decide) ⟨{ entityName := "A", contents := ["x"] }, List.mem_singleton_self _, rfl⟩

theorem createOne_labels_mono (encode : String → Vec) (st st1 : Store) (e : Entity)
    (h : createOne encode st e = .ok st1) :
    st.length ≤ st1.length ∧
    ∀ i (hi : i < st.length) (hi' : i < st1.length),
      (st.get ⟨i, hi⟩).nodeLabels ⊆ (st1.get ⟨i, hi'⟩).nodeLabels := by
  rcases createOne_ok encode st st1 e h with ⟨L, _, hst⟩
  subst hst
  by_cases hany : st.any (keyMatchB e.name e.type) = true
  · rw [mergeEntity_hit st e L (genEmbeddings encode e) hany]
    refine ⟨by simp, ?_⟩
    intro i hi hi'
    have hget : ((st.map (mergeNode e L (genEmbeddings encode e))).map
        (nodeAttachFold e.name L)).get ⟨i, hi'⟩
        = nodeAttachFold e.name L (mergeNode e L (genEmbeddings encode e) (st.get ⟨i, hi⟩)) := by
      simp only [List.get_eq_getElem, List.getElem_map]
    rw [hget]
    intro a ha
    refine nodeAttachFold_labels_mono e.name L _ ?_
    rw [(mergeNode_key e L (genEmbeddings encode e) _).2.2]
    exact ha
  · have hany' : st.any (keyMatchB e.name e.type) = false := Bool.eq_false_iff.mpr hany
    rcases mergeEntity_fresh st e L (genEmbeddings encode e) hany' with ⟨n0, hm1, _⟩
    rw [hm1]
    refine ⟨by simp, ?_⟩
    intro i hi hi'
    have hget : ((st ++ [n0]).map (nodeAttachFold e.name L)).get ⟨i, hi'⟩
        = nodeAttachFold e.name L ((st ++ [n0]).get ⟨i, by simp; omega⟩) := by
      simp only [List.get_eq_getElem, List.getElem_map]
    rw [hget]
    have happ : (st ++ [n0]).get ⟨i, by simp; omega⟩ = st.get ⟨i, hi⟩ := by
      simp only [List.get_eq_getElem]
      rw [List.getElem_append_left]
    rw [happ]
    exact nodeAttachFold_labels_mono e.name L _

theorem create_entities_labels_mono (encode : String → Vec) :
    ∀ (es : List Entity) (st st' : Store), create_entities encode st es = .ok st' →
      st.length ≤ st'.length ∧
      ∀ i (hi : i < st.length) (hi' : i < st'.length),
        (st.get ⟨i, hi⟩).nodeLabels ⊆ (st'.get ⟨i, hi'⟩).nodeLabels := by
  intro es
  induction es with
  | nil =>
    intro st st' h
    have hst : st' = st := (Except.ok.inj h).symm
    subst hst
    exact ⟨le_refl _, fun i hi hi' => fun a ha => ha⟩
  | cons e es ih =>
    intro st st' h
    unfold create_entities at h
    simp only [List.foldlM_cons] at h
    cases hc : createOne encode st e with
    | error msg =>
      rw [hc] at h
      exact absurd h (fun hh => Except.noConfusion hh)
    | ok st1 =>
      rw [hc] at h
      have h' : create_entities encode st1 es = .ok st' := h
      rcases createOne_labels_mono encode st st1 e hc with ⟨hl1, hs1⟩
      rcases ih st1 st' h' with ⟨hl2, hs2⟩
      refine ⟨le_trans hl1 hl2, ?_⟩
      intro i hi hi'
      have hi1 : i < st1.length := lt_of_lt_of_le hi hl1
      exact fun a ha => hs2 i hi1 hi' (hs1 i hi hi1 ha)

/-- C3: a repeated `create_entities` upsert never removes an attached
graph label from any pre-existing node (labels only accumulate), and on
the spec's example the node ends up carrying
`{Blockchain, Technology, Digital, Platform}` plus the `Entity` base
marker, with both observations. -/
theorem labels_union_never_removed (encode : String → Vec) :
    (∀ (es : List Entity) (st st' : Store), create_entities encode st es = .ok st' →
      st.length ≤ st'.length ∧
      ∀ i (hi : i < st.length) (hi' : i < st'.length),
        (st.get ⟨i, hi⟩).nodeLabels ⊆ (st'.get ⟨i, hi'⟩).nodeLabels) ∧
    Except.map (fun s : Store => s.map (fun n => (n.nodeLabels, n.observations)))
        (create_entities encode []
          [{ name := "Ethereum", type := "Technology",
             observations := ["Smart contract platform"],
             labels := some ["Blockchain", "Technology"] }] >>= fun s =>
         create_entities encode s
          [{ name := "Ethereum", type := "Technology",
             observations := ["Supports DeFi"],
             labels := some ["Digital", "Platform"] }])
      = .ok [(["Entity", "Blockchain", "Technology", "Digital", "Platform"],
              ["Smart contract platform", "Supports DeFi"])] := by
  refine ⟨create_entities_labels_mono encode, ?_⟩
  rfl

/-- Witness for C3: a pre-existing node keeps its attached labels
through a label-bearing upsert of the same entity. -/
theorem labels_union_never_removed_witness :
    ∃ st', create_entities encodeN
        [{ name := "Eth", type := "T", observations := ["o"],
           nodeLabels := ["Entity", "Legacy"] }]
        [{ name := "Eth", type := "T", observations := [],
           labels := some ["Fresh"] }] = .ok st' ∧
      ∃ hlen : 0 < st'.length,
        ["Entity", "Legacy"] ⊆ (st'.get ⟨0, hlen⟩).nodeLabels := by
  refine ⟨_, rfl, ?_, ?_⟩
  · have h := (create_entities_labels_mono encodeN
      [{ name := "Eth", type := "T", observations := [], labels := some ["Fresh"] }]
      [{ name := "Eth", type := "T", observations := ["o"],
         nodeLabels := ["Entity", "Legacy"] }] _ rfl).1
    exact lt_of_lt_of_le (by decide) h
  · intro a ha
    have h := ((labels_union_never_removed encodeN).1
      [{ name := "Eth", type := "T", observations := [], labels := some ["Fresh"] }]
      [{ name := "Eth", type := "T", observations := ["o"],
         nodeLabels := ["Entity", "Legacy"] }] _ rfl).2 0 (by decide) (by decide)
    refine h ?_
    exact ha
